import Mathlib

set_option maxRecDepth 100000

/-!
Verification development for the segment-intersection analysis pipeline
(`main.py`): reading a text file of 2D segments, pairing consecutive lines,
testing geometric intersection with an epsilon-tolerant orientation test, and
rewriting the file with per-line result labels.

Modelling conventions (shallow embedding of the Python source):
* Python `float` values are modelled by `PyFloat`: finite values are exact
  rationals (`ℚ`), plus `inf`, `-inf` and `nan` with IEEE-754 arithmetic and
  comparison rules (any comparison involving `nan` is false, `inf - inf = nan`,
  `0 * inf = nan`, ...).  Binary rounding of decimal literals to 64-bit floats
  is not modelled: a parsed decimal token denotes its exact rational value.
* Python string helpers used by the source (`str.split()`, `str.strip()`,
  `str.rstrip("\n")`, `str.splitlines()`, `"\n".join`, `float(token)`,
  `str(int(v))`, `f"{v:g}"`) are modelled by executable functions over
  `List Char`.  `splitlines` is modelled for `'\n'`-separated text (the only
  newline convention the pipeline itself produces); `float()` is modelled on
  sign / digits / decimal point / exponent / `inf` / `infinity` / `nan`
  tokens (digit-group underscores and non-ASCII digits are omitted).
* `f"{v:g}"` (C `%g` with default precision 6) is modelled exactly on the
  rational value: round to 6 significant digits with ties-to-even, use fixed
  notation when the decimal exponent is in `[-4, 6)` and scientific notation
  otherwise, and strip insignificant trailing zeros.
-/

/-- Model of a Python `float`: an exact rational, `inf`, `-inf`, or `nan`. -/
inductive PyFloat where
  | fin (q : ℚ)
  | pinf
  | ninf
  | nan
deriving DecidableEq, Repr

instance (n : Nat) : OfNat PyFloat n := ⟨.fin (OfNat.ofNat n)⟩

namespace PyFloat

/-- IEEE-754 negation. -/
def neg : PyFloat → PyFloat
  | fin q => fin (-q)
  | pinf => ninf
  | ninf => pinf
  | nan => nan

/-- IEEE-754 addition (`inf + -inf = nan`). -/
def add : PyFloat → PyFloat → PyFloat
  | nan, _ => nan
  | _, nan => nan
  | fin a, fin b => fin (a + b)
  | pinf, ninf => nan
  | ninf, pinf => nan
  | pinf, _ => pinf
  | _, pinf => pinf
  | ninf, _ => ninf
  | _, ninf => ninf

/-- IEEE-754 subtraction. -/
def sub (a b : PyFloat) : PyFloat := add a (neg b)

/-- IEEE-754 multiplication (`0 * inf = nan`). -/
def mul : PyFloat → PyFloat → PyFloat
  | nan, _ => nan
  | _, nan => nan
  | fin a, fin b => fin (a * b)
  | fin a, pinf => if a = 0 then nan else if 0 < a then pinf else ninf
  | fin a, ninf => if a = 0 then nan else if 0 < a then ninf else pinf
  | pinf, fin b => if b = 0 then nan else if 0 < b then pinf else ninf
  | ninf, fin b => if b = 0 then nan else if 0 < b then ninf else pinf
  | pinf, pinf => pinf
  | pinf, ninf => ninf
  | ninf, pinf => ninf
  | ninf, ninf => pinf

/-- IEEE-754 absolute value. -/
def abs : PyFloat → PyFloat
  | fin q => fin |q|
  | pinf => pinf
  | ninf => pinf
  | nan => nan

/-- IEEE-754 strict less-than; every comparison involving `nan` is `false`. -/
def lt : PyFloat → PyFloat → Bool
  | fin a, fin b => decide (a < b)
  | nan, _ => false
  | _, nan => false
  | pinf, _ => false
  | _, pinf => true
  | _, ninf => false
  | ninf, _ => true

/-- IEEE-754 less-or-equal; every comparison involving `nan` is `false`. -/
def le : PyFloat → PyFloat → Bool
  | fin a, fin b => decide (a ≤ b)
  | nan, _ => false
  | _, nan => false
  | ninf, _ => true
  | _, pinf => true
  | pinf, _ => false
  | _, ninf => false

/-- Python `a > b`, i.e. `b < a`. -/
def gt (a b : PyFloat) : Bool := lt b a

/-- Python builtin `min(a, b)`: `b` if `b < a`, else `a`. -/
def min2 (a b : PyFloat) : PyFloat := if lt b a then b else a

/-- Python builtin `max(a, b)`: `b` if `a < b`, else `a`. -/
def max2 (a b : PyFloat) : PyFloat := if lt a b then b else a

/-- Python `float.is_integer`: true exactly for finite integral values. -/
def is_integer : PyFloat → Bool
  | fin q => q.den = 1
  | _ => false

end PyFloat

/-! ### String primitives used by the source, modelled over `List Char` -/

/-- Chunks of a character list separated by whitespace characters
(`str.split()` keeps the non-empty ones).  Never returns `[]`. -/
def wsChunks : List Char → List (List Char)
  | [] => [[]]
  | c :: cs =>
    match c.isWhitespace, wsChunks cs with
    | true, r => [] :: r
    | false, ch :: rest => (c :: ch) :: rest
    | false, [] => [[c]]

/-- Python `str.split()` with no argument: split on whitespace runs,
dropping empty tokens. -/
def tokensL (cs : List Char) : List (List Char) :=
  (wsChunks cs).filter (fun t => !t.isEmpty)

/-- Chunks of a character list separated by `'\n'`.  Never returns `[]`. -/
def nlChunks : List Char → List (List Char)
  | [] => [[]]
  | c :: cs =>
    match c == '\n', nlChunks cs with
    | true, r => [] :: r
    | false, ch :: rest => (c :: ch) :: rest
    | false, [] => [[c]]

/-- Python `str.splitlines()` restricted to `'\n'` newlines: split on `'\n'`,
with no empty trailing line for text ending in `'\n'`. -/
def splitlinesL (cs : List Char) : List (List Char) :=
  let r := nlChunks cs
  if r.getLast? = some [] then r.dropLast else r

/-- Drop the longest suffix of characters satisfying `p`. -/
def dropTrailWhile (p : Char → Bool) (cs : List Char) : List Char :=
  (cs.reverse.dropWhile p).reverse

/-- Python `str.strip()`: remove leading and trailing whitespace. -/
def stripChars (cs : List Char) : List Char :=
  dropTrailWhile Char.isWhitespace (cs.dropWhile Char.isWhitespace)

/-- Python `str.rstrip("\n")`: remove trailing newline characters. -/
def rstripNlL (cs : List Char) : List Char :=
  dropTrailWhile (fun c => c == '\n') cs

/-- Python `"\n".join`. -/
def joinNlL : List (List Char) → List Char
  | [] => []
  | [x] => x
  | x :: xs => x ++ '\n' :: joinNlL xs

/-- Python `str.split()` lifted to `String`. -/
def pySplit (s : String) : List String := (tokensL s.data).map String.mk

/-- Python `str.strip()` lifted to `String`. -/
def pyStrip (s : String) : String := String.mk (stripChars s.data)

/-- Python `str.rstrip("\n")` lifted to `String`. -/
def pyRstripNl (s : String) : String := String.mk (rstripNlL s.data)

/-- Python `str.splitlines()` lifted to `String`. -/
def pySplitlines (s : String) : List String := (splitlinesL s.data).map String.mk

/-- Python `"\n".join` lifted to `String`. -/
def joinNl (l : List String) : String := String.mk (joinNlL (l.map String.data))

/-! ### Decimal rendering and parsing of numbers -/

/-- Decimal digits of a positive natural number, most significant first.
`fuel` bounds the recursion depth (`fuel = n` always suffices). -/
def natStrAux : Nat → Nat → List Char
  | 0, _ => []
  | fuel + 1, n => if n = 0 then [] else natStrAux fuel (n / 10) ++ [Nat.digitChar (n % 10)]

/-- Decimal representation of a natural number (Python `str` on naturals). -/
def natStr (n : Nat) : List Char := if n = 0 then ['0'] else natStrAux n n

/-- Decimal representation of an integer (Python `str(int)`). -/
def intStr (m : Int) : List Char :=
  if m < 0 then '-' :: natStr m.natAbs else natStr m.natAbs

/-- Numeric value of a list of decimal digit characters. -/
def digitsVal (cs : List Char) : Nat :=
  cs.foldl (fun a c => 10 * a + (c.toNat - 48)) 0

/-- The power `10 ^ z` as a rational, for an integer exponent. -/
def qpow10 (z : Int) : ℚ :=
  if 0 ≤ z then (10 : ℚ) ^ z.toNat else ((10 : ℚ) ^ (-z).toNat)⁻¹

/-- Lower-case an ASCII letter. -/
def lowerAscii (c : Char) : Char :=
  if 'A' ≤ c && c ≤ 'Z' then Char.ofNat (c.toNat + 32) else c

/-- Parse the mantissa part of a `float()` literal: `digits`, `digits.digits`,
`digits.` or `.digits`.  Returns the value and the unconsumed suffix. -/
def parseMantissa (cs : List Char) : Option (ℚ × List Char) :=
  let ip := cs.takeWhile Char.isDigit
  let rest := cs.drop ip.length
  if rest.head? = some '.' then
    let rest2 := rest.tail
    let fp := rest2.takeWhile Char.isDigit
    let rest3 := rest2.drop fp.length
    if ip.isEmpty && fp.isEmpty then none
    else some ((digitsVal ip : ℚ) + (digitsVal fp : ℚ) / (10 : ℚ) ^ fp.length, rest3)
  else if ip.isEmpty then none else some ((digitsVal ip : ℚ), rest)

/-- Parse the optional exponent part of a `float()` literal. -/
def parseExpPart : List Char → Option Int
  | [] => some 0
  | c :: rest =>
    if lowerAscii c = 'e' then
      let sr : Int × List Char :=
        match rest with
        | '+' :: t => (1, t)
        | '-' :: t => (-1, t)
        | t => (1, t)
      if !sr.2.isEmpty && sr.2.all Char.isDigit then some (sr.1 * (digitsVal sr.2 : Int))
      else none
    else none

/-- Strip an optional leading sign, returning the sign factor and the body. -/
def splitSign (cs : List Char) : ℚ × List Char :=
  match cs with
  | c :: t => if c = '+' then (1, t) else if c = '-' then (-1, t) else (1, cs)
  | [] => (1, [])

/-- Model of Python `float(token)` on whitespace-free tokens: optional sign,
then `inf`/`infinity`/`nan` (case-insensitive) or a decimal mantissa with an
optional exponent. -/
def parse_float (s : String) : Option PyFloat :=
  let sb : ℚ × List Char := splitSign s.data
  let low := sb.2.map lowerAscii
  if low = "inf".data then some (if sb.1 = 1 then .pinf else .ninf)
  else if low = "infinity".data then some (if sb.1 = 1 then .pinf else .ninf)
  else if low = "nan".data then some .nan
  else
    match parseMantissa sb.2 with
    | none => none
    | some (m, rest) =>
      match parseExpPart rest with
      | none => none
      | some ex => some (.fin (sb.1 * m * qpow10 ex))

/-- Round a rational to the nearest integer, ties to even (the rounding used
when converting a float to decimal). -/
def roundHalfEven (x : ℚ) : Int :=
  let f := x.floor
  let r := x - (f : ℚ)
  if r < 1 / 2 then f
  else if 1 / 2 < r then f + 1
  else if f % 2 = 0 then f else f + 1

/-- Number of decimal digits of a positive natural number. -/
def numDigits (n : Nat) : Nat := (natStr n).length

/-- Decimal exponent of a positive rational: the unique `e` with
`10 ^ e ≤ a < 10 ^ (e + 1)`. -/
def decExp (a : ℚ) : Int :=
  let e0 : Int := (numDigits a.num.natAbs : Int) - (numDigits a.den : Int)
  if qpow10 e0 ≤ a then e0 else e0 - 1

/-- Remove trailing `'0'` characters. -/
def stripTrailZeros (ds : List Char) : List Char :=
  (ds.reverse.dropWhile (fun c => c == '0')).reverse

/-- Left-pad with `'0'` to width `k`. -/
def padLeftZeros (k : Nat) (ds : List Char) : List Char :=
  List.replicate (k - ds.length) '0' ++ ds

/-- Exponent suffix of scientific notation: `e`, a sign, and at least two
exponent digits. -/
def expSuffix (e : Int) : List Char :=
  'e' :: (if e < 0 then '-' else '+') :: padLeftZeros 2 (natStr e.natAbs)

/-- Fixed-notation layout of `%g`: 6 significant digits `m` at decimal
exponent `e ∈ [-4, 6)`, with `5 - e` fractional digits before stripping
trailing zeros. -/
def gfixed (m : Nat) (e : Int) : List Char :=
  if 0 ≤ e then
    let k := (5 - e).toNat
    let ipart := natStr (m / 10 ^ k)
    let fpart := stripTrailZeros (padLeftZeros k (natStr (m % 10 ^ k)))
    if fpart.isEmpty then ipart else ipart ++ '.' :: fpart
  else
    '0' :: '.' :: List.replicate (-1 - e).toNat '0' ++ stripTrailZeros (natStr m)

/-- Scientific-notation layout of `%g`: leading digit, stripped remaining
digits, and the exponent suffix. -/
def gsci (m : Nat) (e : Int) : List Char :=
  match natStr m with
  | [] => []
  | d :: rest =>
    let rest2 := stripTrailZeros rest
    (if rest2.isEmpty then [d] else d :: '.' :: rest2) ++ expSuffix e

/-- C `%g` formatting (default precision 6) of a positive rational: round to 6
significant digits, use fixed notation when the decimal exponent lies in
`[-4, 6)` and scientific notation otherwise, stripping trailing zeros. -/
def gformatPos (a : ℚ) : List Char :=
  let e1 := decExp a
  let m0 := (roundHalfEven (a * qpow10 (5 - e1))).toNat
  let me : Nat × Int := if m0 = 10 ^ 6 then (10 ^ 5, e1 + 1) else (m0, e1)
  if -4 ≤ me.2 && me.2 < 6 then gfixed me.1 me.2 else gsci me.1 me.2

/-- Python `f"{q:g}"` on a finite value: sign plus `%g` of the magnitude. -/
def gformat (q : ℚ) : List Char :=
  if q = 0 then ['0'] else if q < 0 then '-' :: gformatPos (-q) else gformatPos q

/-- Function `format_number` from the source: integral floats print as plain integers
(`str(int(value))`), all other floats print as `f"{value:g}"`. -/
def format_number (v : PyFloat) : String :=
  match v with
  | .fin q => if q.den = 1 then String.mk (intStr q.num) else String.mk (gformat q)
  | .pinf => "inf"
  | .ninf => "-inf"
  | .nan => "nan"

/-! ### Data model and pipeline (`main.py`) -/

/-- Structure `Segment` from the source: a 2D segment defined by two endpoints.
The second field is called `end` in the source; `end` is reserved in Lean. -/
structure Segment where
  start : PyFloat × PyFloat
  endp : PyFloat × PyFloat
deriving DecidableEq, Repr

/-- Structure `LineEntry` from the source: data about one line of the input file. -/
structure LineEntry where
  original_text : String
  numbers : Option (PyFloat × PyFloat × PyFloat × PyFloat) := none
  sanitized_text : Option String := none
  output_text : Option String := none
  color : String := "tab:gray"
deriving DecidableEq, Repr

/-- Python `" ".join(format_number(value) for value in numbers)`. -/
def joinFmt (v : PyFloat × PyFloat × PyFloat × PyFloat) : String :=
  format_number v.1 ++ " " ++ format_number v.2.1 ++ " " ++
    format_number v.2.2.1 ++ " " ++ format_number v.2.2.2

/-- Method `LineEntry.ensure_sanitized` from the source: derive `sanitized_text`
from `numbers` once, if present. -/
def ensure_sanitized (e : LineEntry) : LineEntry :=
  match e.numbers with
  | none => e
  | some v =>
    match e.sanitized_text with
    | some _ => e
    | none => { e with sanitized_text := some (joinFmt v) }

/-- Function `parse_line` from the source: split the stripped line into tokens; with
fewer than 4 tokens, or any of the first 4 not parsing as a float, only
`original_text` is kept; otherwise the 4 numbers are stored and sanitized. -/
def parse_line (line : String) : LineEntry :=
  let tokens := pySplit (pyStrip line)
  let entry : LineEntry := { original_text := pyRstripNl line }
  match tokens with
  | t0 :: t1 :: t2 :: t3 :: _ =>
    match parse_float t0, parse_float t1, parse_float t2, parse_float t3 with
    | some a, some b, some c, some d =>
      ensure_sanitized { entry with numbers := some (a, b, c, d) }
    | _, _, _, _ => entry
  | _ => entry

/-- Helper `orientation` from the source:
`(q.x - p.x) * (r.y - p.y) - (q.y - p.y) * (r.x - p.x)`. -/
def orientation (p q r : PyFloat × PyFloat) : PyFloat :=
  PyFloat.sub (PyFloat.mul (PyFloat.sub q.1 p.1) (PyFloat.sub r.2 p.2))
    (PyFloat.mul (PyFloat.sub q.2 p.2) (PyFloat.sub r.1 p.1))

/-- The tolerance `1e-9` used by `segments_intersect`. -/
def EPS : PyFloat := .fin (1 / 1000000000)

/-- Helper `on_segment` from the source: `q` lies within the epsilon-expanded
bounding box of `p` and `r` on both axes (Python chained comparisons). -/
def on_segment (p q r : PyFloat × PyFloat) : Bool :=
  PyFloat.le (PyFloat.sub (PyFloat.min2 p.1 r.1) EPS) q.1 &&
  PyFloat.le q.1 (PyFloat.add (PyFloat.max2 p.1 r.1) EPS) &&
  PyFloat.le (PyFloat.sub (PyFloat.min2 p.2 r.2) EPS) q.2 &&
  PyFloat.le q.2 (PyFloat.add (PyFloat.max2 p.2 r.2) EPS)

/-- Function `segments_intersect` from the source.  The early-return cascade is the
disjunction of the proper-crossing test and the four epsilon-tolerant
collinear checks. -/
def segments_intersect (first second : Segment) : Bool :=
  let p1 := first.start
  let q1 := first.endp
  let p2 := second.start
  let q2 := second.endp
  let o1 := orientation p1 q1 p2
  let o2 := orientation p1 q1 q2
  let o3 := orientation p2 q2 p1
  let o4 := orientation p2 q2 q1
  (((PyFloat.gt o1 0 && PyFloat.lt o2 0) || (PyFloat.lt o1 0 && PyFloat.gt o2 0)) &&
    ((PyFloat.gt o3 0 && PyFloat.lt o4 0) || (PyFloat.lt o3 0 && PyFloat.gt o4 0))) ||
  (PyFloat.lt (PyFloat.abs o1) EPS && on_segment p1 p2 q1) ||
  (PyFloat.lt (PyFloat.abs o2) EPS && on_segment p1 q2 q1) ||
  (PyFloat.lt (PyFloat.abs o3) EPS && on_segment p2 p1 q2) ||
  (PyFloat.lt (PyFloat.abs o4) EPS && on_segment p2 q1 q2)

/-- The result label written after the coordinates of a processed pair. -/
def result_label (intersects : Bool) : String :=
  if intersects then "Пересекается" else "Не пересекается"

/-- Annotation of one member of a processed pair (body of the pair branch of
`analyze_pairs`): Python's truthiness test on `sanitized_text` falls back to
`original_text` when it is `None` or empty. -/
def annotate (e : LineEntry) (intersects : Bool) : LineEntry :=
  let e1 := ensure_sanitized e
  { e1 with
    output_text := some
      (match e1.sanitized_text with
       | some s => if s = "" then e1.original_text else s ++ " " ++ result_label intersects
       | none => e1.original_text),
    color := if intersects then "tab:red" else "tab:green" }

/-- The pairing loop of `analyze_pairs` (`for index in range(0, len(entries) - 1, 2)`),
as structural recursion two entries at a time: a pair with both entries parsed
is annotated, any other pair is skipped, a trailing unpaired entry is ignored. -/
def pairLoop : List LineEntry → List LineEntry
  | a :: b :: rest =>
    match a.numbers, b.numbers with
    | some va, some vb =>
      let segment_a : Segment := ⟨(va.1, va.2.1), (va.2.2.1, va.2.2.2)⟩
      let segment_b : Segment := ⟨(vb.1, vb.2.1), (vb.2.2.1, vb.2.2.2)⟩
      let intersects := segments_intersect segment_a segment_b
      annotate a intersects :: annotate b intersects :: pairLoop rest
    | _, _ => a :: b :: pairLoop rest
  | l => l

/-- The final pass of `analyze_pairs`: entries without an `output_text` fall
back to `sanitized_text` when it is not `None`, else to `original_text`. -/
def fill_output (e : LineEntry) : LineEntry :=
  match e.output_text with
  | some _ => e
  | none =>
    { e with output_text := some (match e.sanitized_text with
        | some s => s
        | none => e.original_text) }

/-- Function `analyze_pairs` from the source: the pairing loop followed by the
fallback `output_text` pass. -/
def analyze_pairs (entries : List LineEntry) : List LineEntry :=
  (pairLoop entries).map fill_output

/-- Function `load_entries` from the source: split the file content into lines and
parse each one. -/
def load_entries (content : String) : List LineEntry :=
  (pySplitlines content).map parse_line

/-- The text a `LineEntry` contributes to the saved file.  The pipeline sets
`output_text` on every entry before saving; a missing one is rendered as
`""`. -/
def outStr (e : LineEntry) : String := e.output_text.getD ""

/-- The file content written by `save_entries`: every `output_text` joined
with `"\n"`, plus a trailing newline. -/
def save_content (entries : List LineEntry) : String :=
  joinNl (entries.map outStr) ++ "\n"

/-- The indices visited by `range(0, n - 1, 2)` for `n` entries. -/
def pairIndices (n : Nat) : List Nat :=
  (List.range (n - 1)).filter (fun i => i % 2 == 0)

/-- The summary count printed by `main`:
`sum(1 for _ in range(0, len(entries) - 1, 2))`. -/
def pair_count (n : Nat) : Nat := (pairIndices n).length

/-- The file content produced by one run of the pipeline on the input file
content (`load_entries`, `analyze_pairs`, `save_entries`). -/
def run_content (content : String) : String :=
  save_content (analyze_pairs (load_entries content))

/-- The summary count produced by one run of the pipeline. -/
def run_summary (content : String) : Nat :=
  pair_count (load_entries content).length

/-- A file system, mapping paths to file contents. -/
def FS : Type := String → Option String

/-- Function `main` from the source, on a modelled file system: a missing input path
raises `FileNotFoundError` before anything is read or written; otherwise the
input file is rewritten in place and the pair count is reported.  Plotting is
an external collaborator and is not modelled. -/
def mainFS (fs : FS) (input_path : String) : Except String (FS × Nat) :=
  match fs input_path with
  | none => .error ("Файл " ++ input_path ++ " не найден")
  | some content =>
    .ok (fun p => if p = input_path then some (run_content content) else fs p,
      run_summary content)

/-- Modelled from the spec (the claim's reading of the summary): the number of
consecutive index pairs for which processing actually occurred, i.e. pairs
where both entries parsed; pairs skipped because either entry lacks numbers
are not counted. -/
def spec_processed_pairs : List LineEntry → Nat
  | a :: b :: rest =>
    (if a.numbers.isSome && b.numbers.isSome then 1 else 0) + spec_processed_pairs rest
  | _ => 0

/-- A character produced for a decimal digit. -/
def decimalChar (c : Char) : Prop := ∃ k, k < 10 ∧ c = Nat.digitChar k

/-- Round-trip property of one value: its canonical text parses back to it. -/
def roundtrips (v : PyFloat) : Prop := parse_float (format_number v) = some v

/-- Correspondence between a freshly parsed entry of run 2 and the
corresponding freshly parsed entry of run 1: same parse status and numbers,
same sanitized text, and (for unparsed lines) the same original text. -/
def SimW (p1 p2 : LineEntry) : Prop :=
  p1.numbers = p2.numbers ∧
  p1.sanitized_text = p2.sanitized_text ∧
  p1.output_text = none ∧ p2.output_text = none ∧
  (p1.numbers = none → p1.sanitized_text = none ∧ p1.original_text = p2.original_text) ∧
  (∀ v, p1.numbers = some v → p1.sanitized_text = some (joinFmt v))

/-- Relation `SimW` lifted to lists, position by position. -/
def SimL : List LineEntry → List LineEntry → Prop
  | [], [] => True
  | a :: t1, b :: t2 => SimW a b ∧ SimL t1 t2
  | _, _ => False

/-! ### Helper lemmas -/

/-- Disjunction-chain reshuffling behind the symmetry of `segments_intersect`. -/
theorem bool_or_chain_shuffle (x y c1 c2 c3 c4 : Bool) :
    ((x && y) || c1 || c2 || c3 || c4) = ((y && x) || c3 || c4 || c1 || c2) := by
  cases x <;> cases y <;> cases c1 <;> cases c2 <;> cases c3 <;> cases c4 <;> rfl

/-- Counting the even numbers below `m`. -/
theorem length_filter_even_range (m : Nat) :
    ((List.range m).filter (fun i => i % 2 == 0)).length = (m + 1) / 2 := by
  induction m with
  | zero => rfl
  | succ n ih =>
    rw [List.range_succ, List.filter_append, List.length_append, ih]
    by_cases h : n % 2 = 0
    · rw [show (List.filter (fun i => i % 2 == 0) [n]).length = 1 by
        simp [List.filter_cons, h]]
      omega
    · rw [show (List.filter (fun i => i % 2 == 0) [n]).length = 0 by
        simp [List.filter_cons, h]]
      omega

/-! ### Claims -/

/-- C2: on the input file with lines `"0 0 4 4 extra"`, `"0 4 4 0"`,
`"not a number here"`, the pipeline rewrites line 1 to `"0 0 4 4 Пересекается"`
(the fifth token is discarded), line 2 to `"0 4 4 0 Пересекается"`, leaves
line 3 unchanged, and the summary reports exactly 1 pair. -/
theorem claim_C2_end_to_end :
    run_content "0 0 4 4 extra\n0 4 4 0\nnot a number here\n" =
      "0 0 4 4 Пересекается\n0 4 4 0 Пересекается\nnot a number here\n" ∧
    run_summary "0 0 4 4 extra\n0 4 4 0\nnot a number here\n" = 1 := by
  exact ⟨by with_unfolding_all decide, by with_unfolding_all decide⟩

/-- C6: the segments `(0,0)-(2,2)` and `(2,2)-(4,0)`, sharing exactly the
endpoint `(2,2)`, intersect (the epsilon-tolerant collinear check fires on
the zero orientation of the shared endpoint). -/
theorem claim_C6_touching_endpoints :
    segments_intersect ⟨(0, 0), (2, 2)⟩ ⟨(2, 2), (4, 0)⟩ = true := by
  with_unfolding_all decide

/-- C3: `segments_intersect` is symmetric in its two arguments. -/
theorem claim_C3_symmetry (a b : Segment) :
    segments_intersect a b = segments_intersect b a := by
  simp only [segments_intersect]
  exact bool_or_chain_shuffle _ _ _ _ _ _

/-- C10: `parse_line` accepts non-finite numeric tokens — the line
`"nan inf -inf 1"` parses to `numbers = (nan, inf, -inf, 1)` — and the
pairing engine feeds such a segment to `segments_intersect` without any
upstream rejection: paired with `"0 0 1 1"`, both entries receive a result
label. -/
theorem claim_C10_nonfinite_accepted :
    (parse_line "nan inf -inf 1").numbers =
      some (.nan, .pinf, .ninf, .fin 1) ∧
    (analyze_pairs [parse_line "nan inf -inf 1", parse_line "0 0 1 1"]).map
        (fun e => e.output_text) =
      [some "nan inf -inf 1 Не пересекается", some "0 0 1 1 Не пересекается"] := by
  exact ⟨by with_unfolding_all decide, by with_unfolding_all decide⟩

/-- C9: a missing input path makes the entry point fail with the reported
`FileNotFoundError` message before anything is processed or written: the
result is an error carrying no updated file system. -/
theorem claim_C9_missing_input (fs : FS) (p : String) (h : fs p = none) :
    mainFS fs p = .error ("Файл " ++ p ++ " не найден") := by
  unfold mainFS
  rw [h]

/-- Witness for C9 at a concrete empty file system and path. -/
theorem claim_C9_missing_input_witness :
    ((fun _ => none : FS) "segments.txt" = none) ∧
    mainFS (fun _ => none) "segments.txt" = .error "Файл segments.txt не найден" :=
  ⟨rfl, claim_C9_missing_input (fun _ => none) "segments.txt" rfl⟩

/-- C4 counterexample: on the two-line file `"a\nb\n"` neither line parses, so
no pair is processed, yet the summary still reports 1: the code counts every
pair formed by `range(0, len(entries) - 1, 2)`, not the processed ones. -/
theorem claim_C4_counterexample :
    run_summary "a\nb\n" = 1 ∧
    spec_processed_pairs (load_entries "a\nb\n") = 0 := by
  exact ⟨by with_unfolding_all decide, by with_unfolding_all decide⟩

/-- C4 amended: the summary count reported by the entry point equals
`⌊N / 2⌋` for `N` input lines — the number of consecutive index pairs formed,
whether or not their entries parsed and the geometry test ran. -/
theorem claim_C4_amended (content : String) :
    run_summary content = (pySplitlines content).length / 2 := by
  unfold run_summary pair_count pairIndices load_entries
  rw [List.length_map, length_filter_even_range]
  omega

/-- C1 counterexample: on the single-line file `"999999.6 0 0 1"` the first
run renders the first value as `"1e+06"` (6-significant-digit `%g`), but the
second run reparses `1e+06` as the integral value `1000000.0` and prints it
as `"1000000"`, so the second run's output differs from the first run's. -/
theorem claim_C1_counterexample :
    run_content (run_content "999999.6 0 0 1\n") ≠ run_content "999999.6 0 0 1\n" := by
  with_unfolding_all decide

/-- C5 counterexample: the value `0.12345678` is formatted by `%g` with only
6 significant digits as `"0.123457"`, which parses back to a different value,
so the non-integral formatting is not a shortest round-tripping
representation. -/
theorem claim_C5_counterexample :
    parse_float (format_number (.fin (12345678 / 100000000 : ℚ))) ≠
      some (.fin (12345678 / 100000000 : ℚ)) := by
  with_unfolding_all decide

/-- The pairing loop never reaches a final unpaired entry: with an even
number of entries before it, the appended singleton passes through. -/
theorem pairLoop_append_singleton :
    ∀ (xs : List LineEntry) (e : LineEntry), Even xs.length →
      pairLoop (xs ++ [e]) = pairLoop xs ++ [e]
  | [], e, _ => by simp [pairLoop]
  | [a], e, h => by simp at h
  | a :: b :: t, e, h => by
    have ht : Even t.length := by
      simpa [Nat.even_add_one, Nat.succ_eq_add_one] using h
    have ih := pairLoop_append_singleton t e ht
    simp only [List.cons_append, pairLoop]
    cases ha : a.numbers <;> cases hb : b.numbers <;> simp [ha, hb, ih]

/-- C8: for an entry sequence of odd length, the pairing loop forms only the
pairs among the first `N - 1` entries: the last entry is never paired, never
reaches the geometry test, and only receives the fallback `output_text`
(its canonical text when parsed, else its original text), with `numbers` and
`color` untouched. -/
theorem claim_C8_odd_last_unpaired (xs : List LineEntry) (e : LineEntry)
    (h : Even xs.length) :
    analyze_pairs (xs ++ [e]) = analyze_pairs xs ++ [fill_output e] := by
  unfold analyze_pairs
  rw [pairLoop_append_singleton xs e h, List.map_append]
  rfl

/-- Witness for C8 on a concrete three-line (odd) entry sequence. -/
theorem claim_C8_odd_last_unpaired_witness :
    Even [parse_line "0 0 4 4", parse_line "0 4 4 0"].length ∧
    analyze_pairs ([parse_line "0 0 4 4", parse_line "0 4 4 0"] ++ [parse_line "9 9 8 8"]) =
      analyze_pairs [parse_line "0 0 4 4", parse_line "0 4 4 0"] ++
        [fill_output (parse_line "9 9 8 8")] :=
  ⟨by decide,
   claim_C8_odd_last_unpaired [parse_line "0 0 4 4", parse_line "0 4 4 0"]
     (parse_line "9 9 8 8") (by decide)⟩

/-! ### Digit-character facts -/

theorem decimalChar_spec (c : Char) (h : decimalChar c) :
    c.isDigit = true ∧ c.isWhitespace = false ∧ lowerAscii c = c ∧
      c ≠ 'i' ∧ c ≠ 'n' ∧ c ≠ '+' ∧ c ≠ '-' ∧ c ≠ '.' ∧ c ≠ '\n' := by
  obtain ⟨k, hk, rfl⟩ := h
  interval_cases k <;> exact by decide

theorem mem_natStrAux :
    ∀ (fuel n : Nat), ∀ c ∈ natStrAux fuel n, decimalChar c
  | 0, n => by simp [natStrAux]
  | fuel + 1, n => by
    intro c hc
    unfold natStrAux at hc
    by_cases h : n = 0
    · simp [h] at hc
    · rw [if_neg h] at hc
      rcases List.mem_append.1 hc with h1 | h1
      · exact mem_natStrAux fuel (n / 10) c h1
      · have : c = Nat.digitChar (n % 10) := by simpa using h1
        exact ⟨n % 10, Nat.mod_lt _ (by norm_num), this⟩

theorem mem_natStr (n : Nat) (c : Char) (hc : c ∈ natStr n) : decimalChar c := by
  unfold natStr at hc
  by_cases h : n = 0
  · rw [if_pos h] at hc
    have : c = '0' := by simpa using hc
    exact ⟨0, by norm_num, this⟩
  · rw [if_neg h] at hc
    exact mem_natStrAux n n c hc

theorem natStr_ne_nil (n : Nat) : natStr n ≠ [] := by
  unfold natStr
  by_cases h : n = 0
  · simp [h]
  · rw [if_neg h]
    cases n with
    | zero => exact absurd rfl h
    | succ m =>
      unfold natStrAux
      rw [if_neg h]
      simp

theorem digitsVal_append_digit (xs : List Char) (c : Char) :
    digitsVal (xs ++ [c]) = 10 * digitsVal xs + (c.toNat - 48) := by
  simp [digitsVal, List.foldl_append]

theorem digitsVal_natStrAux :
    ∀ (fuel n : Nat), n ≤ fuel → digitsVal (natStrAux fuel n) = n
  | 0, n, h => by
    have : n = 0 := Nat.le_zero.1 h
    simp [this, natStrAux, digitsVal]
  | fuel + 1, n, h => by
    unfold natStrAux
    by_cases h0 : n = 0
    · simp [h0, digitsVal]
    · rw [if_neg h0, digitsVal_append_digit]
      have hlt : n / 10 < n := Nat.div_lt_self (Nat.pos_of_ne_zero h0) (by norm_num)
      rw [digitsVal_natStrAux fuel (n / 10) (by omega)]
      have h10 : n % 10 < 10 := Nat.mod_lt _ (by norm_num)
      have hd : (Nat.digitChar (n % 10)).toNat - 48 = n % 10 := by
        generalize hk : n % 10 = k
        rw [hk] at h10
        interval_cases k <;> decide
      rw [hd]
      omega

theorem digitsVal_natStr (n : Nat) : digitsVal (natStr n) = n := by
  unfold natStr
  by_cases h : n = 0
  · simp [h, digitsVal]
  · rw [if_neg h]
    exact digitsVal_natStrAux n n le_rfl

/-- Parsing a non-empty all-digit list consumes it completely. -/
theorem parseMantissa_all_digits (l : List Char) (hne : l ≠ [])
    (hdig : ∀ x ∈ l, Char.isDigit x = true) :
    parseMantissa l = some ((digitsVal l : ℚ), []) := by
  have htake : l.takeWhile Char.isDigit = l := List.takeWhile_eq_self_iff.2 hdig
  simp only [parseMantissa, htake, List.drop_length, List.head?_nil]
  simp [hne]

/-- Function `parse_float` reads back a plain decimal digit string, with the given
sign prefix already split off. -/
theorem parse_float_digits (s : String) (sgn : ℚ) (n : Nat)
    (hsplit : splitSign s.data = (sgn, natStr n)) :
    parse_float s = some (.fin (sgn * n)) := by
  obtain ⟨c, t, hcs⟩ : ∃ c t, natStr n = c :: t := by
    cases h : natStr n with
    | nil => exact absurd h (natStr_ne_nil n)
    | cons c t => exact ⟨c, t, rfl⟩
  have hc := decimalChar_spec c (mem_natStr n c (by rw [hcs]; exact List.mem_cons_self _ _))
  have hdig : ∀ x ∈ natStr n, Char.isDigit x = true := fun x hx =>
    (decimalChar_spec x (mem_natStr n x hx)).1
  have hmap : List.map lowerAscii (natStr n) = c :: List.map lowerAscii t := by
    rw [hcs, List.map_cons, hc.2.2.1]
  have hinf : List.map lowerAscii (natStr n) ≠ "inf".data := by
    rw [hmap, show "inf".data = ['i', 'n', 'f'] from rfl]
    intro h
    injection h with h1 _
    exact hc.2.2.2.1 h1
  have hinfy : List.map lowerAscii (natStr n) ≠ "infinity".data := by
    rw [hmap, show "infinity".data = ['i', 'n', 'f', 'i', 'n', 'i', 't', 'y'] from rfl]
    intro h
    injection h with h1 _
    exact hc.2.2.2.1 h1
  have hnan : List.map lowerAscii (natStr n) ≠ "nan".data := by
    rw [hmap, show "nan".data = ['n', 'a', 'n'] from rfl]
    intro h
    injection h with h1 _
    exact hc.2.2.2.2.1 h1
  have hmant := parseMantissa_all_digits (natStr n) (natStr_ne_nil n) hdig
  simp only [parse_float, hsplit]
  rw [if_neg hinf, if_neg hinfy, if_neg hnan, hmant]
  dsimp only [parseExpPart]
  rw [digitsVal_natStr, show qpow10 0 = 1 by simp [qpow10], mul_one]

/-- C5 amended: integral float values are formatted as plain integers without
decimal point or exponent, and this canonical text parses back to the same
value; non-integral values are formatted with `%g` at 6 significant digits
(see the counterexample: that rendering need not round-trip). -/
theorem claim_C5_amended (m : Int) :
    parse_float (format_number (.fin (m : ℚ))) = some (.fin (m : ℚ)) := by
  have hfmt : format_number (.fin (m : ℚ)) = String.mk (intStr m) := by
    simp only [format_number]
    rw [if_pos (Rat.den_intCast m), Rat.num_intCast]
  rw [hfmt]
  by_cases hm : m < 0
  · have hsplit : splitSign (String.mk (intStr m)).data = (-1, natStr m.natAbs) := by
      show splitSign (intStr m) = _
      unfold intStr
      rw [if_pos hm]
      simp [splitSign]
    rw [parse_float_digits _ _ _ hsplit]
    have h1 : ((m.natAbs : ℚ)) = -(m : ℚ) := by
      rw [Int.cast_natAbs (R := ℚ), abs_of_neg hm]
      push_cast
      ring
    congr 1
    congr 1
    rw [h1]
    ring
  · have hsplit : splitSign (String.mk (intStr m)).data = (1, natStr m.natAbs) := by
      show splitSign (intStr m) = _
      unfold intStr
      rw [if_neg hm]
      obtain ⟨c, t, hcs⟩ : ∃ c t, natStr m.natAbs = c :: t := by
        cases h : natStr m.natAbs with
        | nil => exact absurd h (natStr_ne_nil _)
        | cons c t => exact ⟨c, t, rfl⟩
      have hc := decimalChar_spec c (mem_natStr _ c (by rw [hcs]; exact List.mem_cons_self _ _))
      rw [hcs]
      simp [splitSign, hc.2.2.2.2.2.1, hc.2.2.2.2.2.2.1, hcs]
    rw [parse_float_digits _ _ _ hsplit]
    have h1 : ((m.natAbs : ℚ)) = (m : ℚ) := by
      rw [Int.cast_natAbs (R := ℚ), abs_of_nonneg (not_lt.1 hm)]
    congr 1
    congr 1
    rw [h1]
    ring

/-- A line with fewer than 4 tokens, or an unparseable token among the first
4, produces the plain entry: only `original_text` is set. -/
theorem parse_line_unparsed (line : String)
    (hbad : (pySplit (pyStrip line)).length < 4 ∨
      ∃ t ∈ (pySplit (pyStrip line)).take 4, parse_float t = none) :
    parse_line line = { original_text := pyRstripNl line } := by
  rcases h4 : pySplit (pyStrip line) with _ | ⟨t0, _ | ⟨t1, _ | ⟨t2, _ | ⟨t3, rest⟩⟩⟩⟩
  · simp [parse_line, h4]
  · simp [parse_line, h4]
  · simp [parse_line, h4]
  · simp [parse_line, h4]
  · rcases hbad with hlen | ⟨t, ht, hnone⟩
    · rw [h4] at hlen
      simp at hlen
      omega
    · rw [h4] at ht
      simp [List.take] at ht
      cases h0 : parse_float t0 <;> cases h1 : parse_float t1 <;>
        cases h2 : parse_float t2 <;> cases h3 : parse_float t3 <;>
        rcases ht with rfl | rfl | rfl | rfl <;> simp_all [parse_line, h4]

/-- The pairing loop never modifies an entry whose `numbers` is `None`. -/
theorem pairLoop_getElem_of_none :
    ∀ (l : List LineEntry) (i : Nat) (e : LineEntry),
      l[i]? = some e → e.numbers = none → (pairLoop l)[i]? = some e
  | [], i, e, h, _ => by simp at h
  | [a], i, e, h, hn => by simpa [pairLoop] using h
  | a :: b :: rest, i, e, h, hn => by
    match i with
    | 0 =>
      have he : a = e := by simpa using h
      subst he
      cases hb : b.numbers <;> simp [pairLoop, hn, hb]
    | 1 =>
      have he : b = e := by simpa using h
      subst he
      cases ha : a.numbers <;> simp [pairLoop, hn, ha]
    | (i + 2) =>
      have hrec := pairLoop_getElem_of_none rest i e (by simpa using h) hn
      cases ha : a.numbers <;> cases hb : b.numbers <;>
        simp [pairLoop, ha, hb, hrec]

/-- C7: an input line with fewer than 4 whitespace-separated tokens, or with
an unparseable token among the first 4, loads as an entry with `numbers`
absent and all other fields at their defaults, and the pipeline's analysis
leaves it untouched except for setting `output_text` to its `original_text`
(the raw line, newline-normalized), so it is rewritten unchanged. -/
theorem claim_C7_passthrough (content : String) (i : Nat) (line : String)
    (hline : (pySplitlines content)[i]? = some line)
    (hbad : (pySplit (pyStrip line)).length < 4 ∨
      ∃ t ∈ (pySplit (pyStrip line)).take 4, parse_float t = none) :
    (load_entries content)[i]? = some { original_text := pyRstripNl line } ∧
    (analyze_pairs (load_entries content))[i]? =
      some { original_text := pyRstripNl line, output_text := some (pyRstripNl line) } := by
  have hplain := parse_line_unparsed line hbad
  have hload : (load_entries content)[i]? =
      some ({ original_text := pyRstripNl line } : LineEntry) := by
    unfold load_entries
    rw [List.getElem?_map, hline]
    simp [hplain]
  refine ⟨hload, ?_⟩
  unfold analyze_pairs
  rw [List.getElem?_map, pairLoop_getElem_of_none _ _ _ hload rfl]
  rfl

/-- Witness for C7 on a concrete two-token line inside a two-line file. -/
theorem claim_C7_passthrough_witness :
    ((pySplitlines "x y\n0 0 1 1\n")[0]? = some "x y") ∧
    ((pySplit (pyStrip "x y")).length < 4 ∨
      ∃ t ∈ (pySplit (pyStrip "x y")).take 4, parse_float t = none) ∧
    ((load_entries "x y\n0 0 1 1\n")[0]? = some { original_text := pyRstripNl "x y" } ∧
      (analyze_pairs (load_entries "x y\n0 0 1 1\n"))[0]? =
        some { original_text := pyRstripNl "x y",
               output_text := some (pyRstripNl "x y") }) :=
  ⟨by decide, Or.inl (by decide),
    claim_C7_passthrough "x y\n0 0 1 1\n" 0 "x y" (by decide) (Or.inl (by decide))⟩

/-! ### Tokenizer lemmas -/

theorem wsChunks_ne_nil : ∀ cs : List Char, wsChunks cs ≠ []
  | [] => by simp [wsChunks]
  | c :: cs => by
    have := wsChunks_ne_nil cs
    cases h : c.isWhitespace <;> cases hw : wsChunks cs <;>
      simp_all [wsChunks]

theorem wsChunks_all_nonws :
    ∀ t : List Char, (∀ c ∈ t, c.isWhitespace = false) → wsChunks t = [t]
  | [], _ => rfl
  | c :: cs, h => by
    have ih := wsChunks_all_nonws cs (fun x hx => h x (List.mem_cons_of_mem c hx))
    simp [wsChunks, h c (List.mem_cons_self c cs), ih]

theorem wsChunks_append_space :
    ∀ (t l : List Char), (∀ c ∈ t, c.isWhitespace = false) →
      wsChunks (t ++ ' ' :: l) = t :: wsChunks l
  | [], l, _ => by
    have hch : (' ' : Char).isWhitespace = true := rfl
    cases hw : wsChunks l <;> simp_all [wsChunks]
  | c :: cs, l, h => by
    have ih := wsChunks_append_space cs l (fun x hx => h x (List.mem_cons_of_mem c hx))
    simp [wsChunks, h c (List.mem_cons_self c cs), ih]

theorem tokensL_single (t : List Char) (h : ∀ c ∈ t, c.isWhitespace = false)
    (hne : t ≠ []) : tokensL t = [t] := by
  rw [tokensL, wsChunks_all_nonws t h]
  have hemp : t.isEmpty = false := by simp [List.isEmpty_iff, hne]
  simp [List.filter, hemp]

theorem tokensL_append_space (t l : List Char)
    (h : ∀ c ∈ t, c.isWhitespace = false) (hne : t ≠ []) :
    tokensL (t ++ ' ' :: l) = t :: tokensL l := by
  rw [tokensL, wsChunks_append_space t l h]
  have hemp : t.isEmpty = false := by simp [List.isEmpty_iff, hne]
  simp [List.filter, hemp, tokensL]

theorem wsChunks_all_ws :
    ∀ w : List Char, (∀ c ∈ w, c.isWhitespace = true) →
      wsChunks w = List.replicate (w.length + 1) []
  | [], _ => rfl
  | c :: cs, h => by
    have ih := wsChunks_all_ws cs (fun x hx => h x (List.mem_cons_of_mem c hx))
    simp [wsChunks, h c (List.mem_cons_self c cs), ih, List.replicate]

theorem wsChunks_append_ws :
    ∀ (l w : List Char), (∀ c ∈ w, c.isWhitespace = true) →
      wsChunks (l ++ w) = wsChunks l ++ List.replicate w.length []
  | [], w, h => by
    simp [wsChunks, wsChunks_all_ws w h, List.replicate_succ]
  | c :: cs, w, h => by
    have ih := wsChunks_append_ws cs w h
    cases hc : c.isWhitespace
    · cases hw : wsChunks cs with
      | nil => exact absurd hw (wsChunks_ne_nil cs)
      | cons ch rest =>
        rw [hw] at ih
        simp [wsChunks, hc, ih, hw]
    · simp [wsChunks, hc, ih]

theorem tokensL_append_ws (l w : List Char)
    (h : ∀ c ∈ w, c.isWhitespace = true) : tokensL (l ++ w) = tokensL l := by
  rw [tokensL, wsChunks_append_ws l w h, List.filter_append, tokensL]
  have : List.filter (fun t => !t.isEmpty) (List.replicate w.length ([] : List Char)) = [] := by
    induction w.length with
    | zero => rfl
    | succ n ih => simp [List.replicate_succ, List.filter, ih]
  rw [this, List.append_nil]

theorem tokensL_cons_ws (c : Char) (l : List Char) (hc : c.isWhitespace = true) :
    tokensL (c :: l) = tokensL l := by
  cases hw : wsChunks l with
  | nil => exact absurd hw (wsChunks_ne_nil l)
  | cons ch rest => simp [tokensL, wsChunks, hc, hw, List.filter]

theorem tokensL_dropWhile_ws :
    ∀ l : List Char, tokensL (l.dropWhile Char.isWhitespace) = tokensL l
  | [] => rfl
  | c :: cs => by
    cases hc : c.isWhitespace
    · simp [List.dropWhile, hc]
    · rw [List.dropWhile, hc]
      simp only
      rw [tokensL_dropWhile_ws cs, tokensL_cons_ws c cs hc]

theorem tokensL_dropTrailWhile_ws (l : List Char) :
    tokensL (dropTrailWhile Char.isWhitespace l) = tokensL l := by
  conv_rhs =>
    rw [show l = ((l.reverse.takeWhile Char.isWhitespace ++
      l.reverse.dropWhile Char.isWhitespace)).reverse by
        rw [List.takeWhile_append_dropWhile, List.reverse_reverse]]
  rw [List.reverse_append]
  rw [tokensL_append_ws _ _ (fun c hc => by
    rw [List.mem_reverse] at hc
    exact List.mem_takeWhile_imp hc)]
  rfl

theorem tokensL_stripChars (l : List Char) : tokensL (stripChars l) = tokensL l := by
  rw [stripChars, tokensL_dropTrailWhile_ws, tokensL_dropWhile_ws]

/-! ### Line-splitting lemmas -/

theorem nlChunks_ne_nil : ∀ cs : List Char, nlChunks cs ≠ []
  | [] => by simp [nlChunks]
  | c :: cs => by
    have ihne := nlChunks_ne_nil cs
    cases h : c == '\n' <;> cases hw : nlChunks cs <;>
      first
      | exact absurd hw ihne
      | simp [nlChunks, h, hw]

theorem nlChunks_append_nl :
    ∀ (x r : List Char), '\n' ∉ x → nlChunks (x ++ '\n' :: r) = x :: nlChunks r
  | [], r, _ => by
    cases hw : nlChunks r <;> simp_all [nlChunks]
  | c :: cs, r, h => by
    have hc : (c == '\n') = false := by
      simp only [beq_eq_false_iff_ne]
      exact fun hcc => h (hcc ▸ List.mem_cons_self c cs)
    have ih := nlChunks_append_nl cs r (fun hm => h (List.mem_cons_of_mem c hm))
    simp [nlChunks, hc, ih]

theorem mem_nlChunks_no_nl : ∀ (cs : List Char), ∀ l ∈ nlChunks cs, '\n' ∉ l
  | [], l, hl => by
    simp [nlChunks] at hl
    simp [hl]
  | c :: cs, l, hl => by
    have ih := mem_nlChunks_no_nl cs
    cases hc : c == '\n'
    · cases hw : nlChunks cs with
      | nil => exact absurd hw (nlChunks_ne_nil cs)
      | cons ch rest =>
        rw [show nlChunks (c :: cs) = (c :: ch) :: rest by simp [nlChunks, hc, hw]] at hl
        rcases List.mem_cons.1 hl with rfl | hmem
        · intro hmm
          rcases List.mem_cons.1 hmm with rfl | hmem2
          · simp at hc
          · exact ih ch (hw ▸ List.mem_cons_self ch rest) hmem2
        · exact ih l (hw ▸ List.mem_cons_of_mem ch hmem)
    · rw [show nlChunks (c :: cs) = [] :: nlChunks cs by simp [nlChunks, hc]] at hl
      rcases List.mem_cons.1 hl with rfl | hmem
      · simp
      · exact ih l hmem

theorem nlChunks_joinNl :
    ∀ outs : List (List Char), outs ≠ [] → (∀ x ∈ outs, '\n' ∉ x) →
      nlChunks (joinNlL outs ++ ['\n']) = outs ++ [[]]
  | [], h, _ => absurd rfl h
  | [x], _, hx => by
    rw [joinNlL, show x ++ ['\n'] = x ++ '\n' :: [] from rfl,
      nlChunks_append_nl x [] (hx x (List.mem_cons_self x []))]
    rfl
  | x :: y :: rest, _, hx => by
    have ih := nlChunks_joinNl (y :: rest) (by simp)
      (fun z hz => hx z (List.mem_cons_of_mem x hz))
    rw [show joinNlL (x :: y :: rest) = x ++ '\n' :: joinNlL (y :: rest) from rfl]
    rw [List.append_assoc, List.cons_append]
    rw [nlChunks_append_nl x _ (hx x (List.mem_cons_self x _))]
    rw [ih]
    rfl

theorem splitlinesL_joinNl (outs : List (List Char)) (h : outs ≠ [])
    (hx : ∀ x ∈ outs, '\n' ∉ x) :
    splitlinesL (joinNlL outs ++ ['\n']) = outs := by
  rw [splitlinesL]
  simp only [nlChunks_joinNl outs h hx]
  rw [if_pos (by simp), List.dropLast_concat]

theorem mem_splitlinesL_no_nl (cs : List Char) (l : List Char)
    (hl : l ∈ splitlinesL cs) : '\n' ∉ l := by
  rw [splitlinesL] at hl
  by_cases hc : (nlChunks cs).getLast? = some []
  · rw [if_pos hc] at hl
    exact mem_nlChunks_no_nl cs l (List.dropLast_sublist _ |>.mem hl)
  · rw [if_neg hc] at hl
    exact mem_nlChunks_no_nl cs l hl

/-! ### Shape of formatted numbers -/

theorem mem_stripTrailZeros (l : List Char) (c : Char)
    (hc : c ∈ stripTrailZeros l) : c ∈ l := by
  rw [stripTrailZeros, List.mem_reverse] at hc
  have h2 := (List.dropWhile_sublist (fun c => c == '0')).mem hc
  rwa [List.mem_reverse] at h2

theorem mem_padLeftZeros (k : Nat) (l : List Char) (c : Char)
    (hc : c ∈ padLeftZeros k l) : c = '0' ∨ c ∈ l := by
  rw [padLeftZeros] at hc
  rcases List.mem_append.1 hc with h | h
  · exact Or.inl (List.eq_of_mem_replicate h)
  · exact Or.inr h

theorem natStr_not_ws (n : Nat) (c : Char) (hc : c ∈ natStr n) :
    c.isWhitespace = false :=
  (decimalChar_spec c (mem_natStr n c hc)).2.1

theorem expSuffix_not_ws (e : Int) (c : Char) (hc : c ∈ expSuffix e) :
    c.isWhitespace = false := by
  rw [expSuffix] at hc
  rcases List.mem_cons.1 hc with rfl | hc2
  · rfl
  rcases List.mem_cons.1 hc2 with rfl | hc3
  · split <;> rfl
  rcases mem_padLeftZeros _ _ c hc3 with rfl | h
  · rfl
  · exact natStr_not_ws _ c h

theorem gfixed_not_ws (m : Nat) (e : Int) (c : Char) (hc : c ∈ gfixed m e) :
    c.isWhitespace = false := by
  rw [gfixed] at hc
  split at hc
  · dsimp only at hc
    split at hc
    · exact natStr_not_ws _ c hc
    · rcases List.mem_append.1 hc with h | h
      · exact natStr_not_ws _ c h
      · rcases List.mem_cons.1 h with rfl | h2
        · rfl
        · rcases mem_padLeftZeros _ _ c (mem_stripTrailZeros _ c h2) with rfl | h3
          · rfl
          · exact natStr_not_ws _ c h3
  · rcases List.mem_cons.1 hc with rfl | h2
    · rfl
    rcases List.mem_cons.1 h2 with rfl | h3
    · rfl
    rcases List.mem_append.1 h3 with h4 | h4
    · rw [List.eq_of_mem_replicate h4]; rfl
    · exact natStr_not_ws _ c (mem_stripTrailZeros _ c h4)

theorem gsci_not_ws (m : Nat) (e : Int) (c : Char) (hc : c ∈ gsci m e) :
    c.isWhitespace = false := by
  rw [gsci] at hc
  cases hns : natStr m with
  | nil => rw [hns] at hc; simp at hc
  | cons d rest =>
    rw [hns] at hc
    simp only at hc
    rcases List.mem_append.1 hc with h | h
    · have hd : d ∈ natStr m := by rw [hns]; exact List.mem_cons_self d rest
      split at h
      · rcases List.mem_singleton.1 h with rfl
        exact natStr_not_ws _ c hd
      · rcases List.mem_cons.1 h with rfl | h2
        · exact natStr_not_ws _ c hd
        rcases List.mem_cons.1 h2 with rfl | h3
        · rfl
        · have : c ∈ rest := mem_stripTrailZeros _ c h3
          exact natStr_not_ws m c (by rw [hns]; exact List.mem_cons_of_mem d this)
    · exact expSuffix_not_ws e c h

theorem gformatPos_not_ws (a : ℚ) (c : Char) (hc : c ∈ gformatPos a) :
    c.isWhitespace = false := by
  simp only [gformatPos] at hc
  split at hc <;> split at hc <;>
    first
    | exact gfixed_not_ws _ _ c hc
    | exact gsci_not_ws _ _ c hc

theorem gformat_not_ws (q : ℚ) (c : Char) (hc : c ∈ gformat q) :
    c.isWhitespace = false := by
  rw [gformat] at hc
  split at hc
  · rcases List.mem_singleton.1 hc with rfl
    rfl
  split at hc
  · rcases List.mem_cons.1 hc with rfl | h
    · rfl
    · exact gformatPos_not_ws _ c h
  · exact gformatPos_not_ws _ c hc

theorem intStr_not_ws (m : Int) (c : Char) (hc : c ∈ intStr m) :
    c.isWhitespace = false := by
  rw [intStr] at hc
  split at hc
  · rcases List.mem_cons.1 hc with rfl | h
    · rfl
    · exact natStr_not_ws _ c h
  · exact natStr_not_ws _ c hc

theorem format_number_not_ws (v : PyFloat) (c : Char)
    (hc : c ∈ (format_number v).data) : c.isWhitespace = false := by
  cases v with
  | fin q =>
    rw [format_number] at hc
    split at hc
    · exact intStr_not_ws _ c hc
    · exact gformat_not_ws _ c hc
  | pinf =>
    rw [show (format_number PyFloat.pinf).data = ['i', 'n', 'f'] from rfl] at hc
    simp at hc
    rcases hc with rfl | rfl | rfl <;> rfl
  | ninf =>
    rw [show (format_number PyFloat.ninf).data = ['-', 'i', 'n', 'f'] from rfl] at hc
    simp at hc
    rcases hc with rfl | rfl | rfl | rfl <;> rfl
  | nan =>
    rw [show (format_number PyFloat.nan).data = ['n', 'a', 'n'] from rfl] at hc
    simp at hc
    rcases hc with rfl | rfl | rfl <;> rfl

theorem gfixed_ne_nil (m : Nat) (e : Int) : gfixed m e ≠ [] := by
  rw [gfixed]
  split
  · dsimp only
    split
    · exact natStr_ne_nil _
    · intro h
      rcases List.append_eq_nil.1 h with ⟨h1, -⟩
      exact natStr_ne_nil _ h1
  · simp

theorem gsci_ne_nil (m : Nat) (e : Int) : gsci m e ≠ [] := by
  rw [gsci]
  cases hns : natStr m with
  | nil => exact absurd hns (natStr_ne_nil m)
  | cons d rest =>
    simp only
    intro h
    rcases List.append_eq_nil.1 h with ⟨h1, -⟩
    split at h1 <;> simp at h1

theorem format_number_ne_nil (v : PyFloat) : (format_number v).data ≠ [] := by
  cases v with
  | fin q =>
    rw [format_number]
    split
    · rw [intStr]
      split
      · simp
      · exact natStr_ne_nil _
    · rw [gformat]
      split
      · simp
      split
      · simp
      · simp only [gformatPos]
        split <;> split <;>
          first
          | exact gfixed_ne_nil _ _
          | exact gsci_ne_nil _ _
  | pinf => decide
  | ninf => decide
  | nan => decide

/-! ### Re-parsing formatted lines -/

theorem mk_data (s : String) : String.mk s.data = s := rfl

theorem joinFmt_data (v : PyFloat × PyFloat × PyFloat × PyFloat) :
    (joinFmt v).data = (format_number v.1).data ++ ' ' ::
      ((format_number v.2.1).data ++ ' ' ::
        ((format_number v.2.2.1).data ++ ' ' :: (format_number v.2.2.2).data)) := by
  simp [joinFmt, String.data_append, show (" " : String).data = [' '] from rfl,
    List.append_assoc]

theorem joinFmt_ne_empty (v : PyFloat × PyFloat × PyFloat × PyFloat) :
    joinFmt v ≠ "" := by
  intro h
  have hd : (joinFmt v).data = [] := by rw [h]
  rw [joinFmt_data] at hd
  rcases List.append_eq_nil.1 hd with ⟨-, h2⟩
  simp at h2

theorem tokensL_joinFmt (v : PyFloat × PyFloat × PyFloat × PyFloat) :
    tokensL (joinFmt v).data =
      [(format_number v.1).data, (format_number v.2.1).data,
        (format_number v.2.2.1).data, (format_number v.2.2.2).data] := by
  rw [joinFmt_data]
  rw [tokensL_append_space _ _ (format_number_not_ws v.1) (format_number_ne_nil v.1)]
  rw [tokensL_append_space _ _ (format_number_not_ws v.2.1) (format_number_ne_nil v.2.1)]
  rw [tokensL_append_space _ _ (format_number_not_ws v.2.2.1) (format_number_ne_nil v.2.2.1)]
  rw [tokensL_single _ (format_number_not_ws v.2.2.2) (format_number_ne_nil v.2.2.2)]

theorem tokensL_joinFmt_label (v : PyFloat × PyFloat × PyFloat × PyFloat)
    (w : List Char) :
    tokensL ((joinFmt v).data ++ ' ' :: w) =
      (format_number v.1).data :: (format_number v.2.1).data ::
        (format_number v.2.2.1).data :: (format_number v.2.2.2).data :: tokensL w := by
  rw [joinFmt_data]
  simp only [List.append_assoc, List.cons_append]
  rw [tokensL_append_space _ _ (format_number_not_ws v.1) (format_number_ne_nil v.1)]
  rw [tokensL_append_space _ _ (format_number_not_ws v.2.1) (format_number_ne_nil v.2.1)]
  rw [tokensL_append_space _ _ (format_number_not_ws v.2.2.1) (format_number_ne_nil v.2.2.1)]
  rw [tokensL_append_space _ _ (format_number_not_ws v.2.2.2) (format_number_ne_nil v.2.2.2)]

/-- Re-parsing a line whose first four tokens are the canonical texts of the
components of `v`, when those texts round-trip. -/
theorem parse_line_fmt (v : PyFloat × PyFloat × PyFloat × PyFloat) (s : String)
    (rest : List (List Char))
    (hs : tokensL s.data = (format_number v.1).data :: (format_number v.2.1).data ::
      (format_number v.2.2.1).data :: (format_number v.2.2.2).data :: rest)
    (h1 : roundtrips v.1) (h2 : roundtrips v.2.1) (h3 : roundtrips v.2.2.1)
    (h4 : roundtrips v.2.2.2) :
    parse_line s =
      { original_text := pyRstripNl s, numbers := some v,
        sanitized_text := some (joinFmt v) } := by
  have htok : pySplit (pyStrip s) = format_number v.1 :: format_number v.2.1 ::
      format_number v.2.2.1 :: format_number v.2.2.2 :: rest.map String.mk := by
    rw [pySplit, pyStrip, show (String.mk (stripChars s.data)).data = stripChars s.data from rfl]
    rw [tokensL_stripChars, hs]
    simp [mk_data]
  simp only [parse_line, htok]
  rw [show parse_float (format_number v.1) = some v.1 from h1,
    show parse_float (format_number v.2.1) = some v.2.1 from h2,
    show parse_float (format_number v.2.2.1) = some v.2.2.1 from h3,
    show parse_float (format_number v.2.2.2) = some v.2.2.2 from h4]
  rfl

/-- Shape of every entry produced by `parse_line`: `output_text` unset,
default color, original text newline-stripped, and `sanitized_text` derived
from `numbers` exactly when the line parsed. -/
theorem parse_line_shape (line : String) :
    (parse_line line).output_text = none ∧ (parse_line line).color = "tab:gray" ∧
    (parse_line line).original_text = pyRstripNl line ∧
    ((parse_line line).numbers = none → (parse_line line).sanitized_text = none) ∧
    (∀ v, (parse_line line).numbers = some v →
      (parse_line line).sanitized_text = some (joinFmt v)) := by
  simp only [parse_line]
  rcases pySplit (pyStrip line) with _ | ⟨t0, _ | ⟨t1, _ | ⟨t2, _ | ⟨t3, rest⟩⟩⟩⟩ <;>
    try exact ⟨rfl, rfl, rfl, fun _ => rfl, fun v hv => by simp at hv⟩
  dsimp only
  cases parse_float t0 <;> cases parse_float t1 <;>
    cases parse_float t2 <;> cases parse_float t3 <;>
    (try dsimp only [ensure_sanitized]) <;>
    try exact ⟨rfl, rfl, rfl, fun _ => rfl, fun v hv => by simp at hv⟩
  rename_i a b c d
  refine ⟨rfl, rfl, rfl, fun h => by simp at h, fun v hv => ?_⟩
  have hv2 : (a, b, c, d) = v := by simpa using hv
  subst hv2
  rfl

/-! ### Stability of the analysis under re-parsing its own output -/

theorem dropTrailWhile_eq_self (p : Char → Bool) (l : List Char)
    (h : ∀ c ∈ l, p c = false) : dropTrailWhile p l = l := by
  rw [dropTrailWhile]
  have hrev : l.reverse.dropWhile p = l.reverse := by
    cases hr : l.reverse with
    | nil => rfl
    | cons c cs =>
      have hc : c ∈ l := by
        rw [← List.mem_reverse, hr]
        exact List.mem_cons_self c cs
      rw [List.dropWhile_cons, h c hc]
      simp
  rw [hrev, List.reverse_reverse]

theorem mem_dropTrailWhile (p : Char → Bool) (l : List Char) (c : Char)
    (hc : c ∈ dropTrailWhile p l) : c ∈ l := by
  rw [dropTrailWhile, List.mem_reverse] at hc
  have h2 := (List.dropWhile_sublist p).mem hc
  rwa [List.mem_reverse] at h2

/-- The fallback `output_text` of an entry still lacking one. -/
theorem outStr_fill (p : LineEntry) (h : p.output_text = none) :
    outStr (fill_output p) =
      match p.sanitized_text with
      | some s => s
      | none => p.original_text := by
  simp only [fill_output, h]
  rfl

theorem outStr_fill_eq (p1 p2 : LineEntry) (h : SimW p1 p2) :
    outStr (fill_output p1) = outStr (fill_output p2) := by
  obtain ⟨hn, hs, ho1, ho2, himpl, hsome⟩ := h
  rw [outStr_fill _ ho1, outStr_fill _ ho2, ← hs]
  cases hsan : p1.sanitized_text with
  | some s => rfl
  | none =>
    cases hnum : p1.numbers with
    | none => exact (himpl hnum).2
    | some v =>
      rw [hsome v hnum] at hsan
      exact absurd hsan (by simp)

/-- The entry written for a member of a processed pair. -/
theorem annotate_eq (p : LineEntry) (v : PyFloat × PyFloat × PyFloat × PyFloat)
    (i : Bool) (hv : p.numbers = some v)
    (hs : p.sanitized_text = some (joinFmt v)) :
    annotate p i =
      { p with output_text := some (joinFmt v ++ " " ++ result_label i),
               color := if i then "tab:red" else "tab:green" } := by
  have hens : ensure_sanitized p = p := by simp only [ensure_sanitized, hv, hs]
  simp only [annotate, hens, hs]
  rw [if_neg (joinFmt_ne_empty v)]

/-- No newline occurs in a canonically formatted number line. -/
theorem joinFmt_no_nl (v : PyFloat × PyFloat × PyFloat × PyFloat) :
    '\n' ∉ (joinFmt v).data := by
  intro h
  rw [joinFmt_data] at h
  have hws : ('\n' : Char).isWhitespace = true := rfl
  have hsp : ('\n' : Char) ≠ ' ' := by decide
  rcases List.mem_append.1 h with h1 | h1
  · rw [format_number_not_ws v.1 '\n' h1] at hws; simp at hws
  rcases List.mem_cons.1 h1 with h2 | h1
  · exact hsp h2
  rcases List.mem_append.1 h1 with h1 | h1
  · rw [format_number_not_ws v.2.1 '\n' h1] at hws; simp at hws
  rcases List.mem_cons.1 h1 with h2 | h1
  · exact hsp h2
  rcases List.mem_append.1 h1 with h1 | h1
  · rw [format_number_not_ws v.2.2.1 '\n' h1] at hws; simp at hws
  rcases List.mem_cons.1 h1 with h2 | h1
  · exact hsp h2
  · rw [format_number_not_ws v.2.2.2 '\n' h1] at hws; simp at hws

theorem result_label_no_nl (i : Bool) : '\n' ∉ (result_label i).data := by
  cases i <;> decide

/-- Re-parsing a line whose leading tokens are the canonical texts of a
parsed entry's numbers matches that entry, `SimW`-wise. -/
theorem simw_reparse_fmtline (line s : String)
    (v : PyFloat × PyFloat × PyFloat × PyFloat)
    (hn : (parse_line line).numbers = some v)
    (hrt : roundtrips v.1 ∧ roundtrips v.2.1 ∧ roundtrips v.2.2.1 ∧ roundtrips v.2.2.2)
    (rest : List (List Char))
    (hs_tok : tokensL s.data = (format_number v.1).data :: (format_number v.2.1).data ::
      (format_number v.2.2.1).data :: (format_number v.2.2.2).data :: rest) :
    SimW (parse_line s) (parse_line line) := by
  obtain ⟨ho, -, -, -, hsan_some⟩ := parse_line_shape line
  have hs := hsan_some v hn
  rw [parse_line_fmt v s rest hs_tok hrt.1 hrt.2.1 hrt.2.2.1 hrt.2.2.2]
  refine ⟨hn.symm, hs.symm, rfl, ho, fun h => by simp at h, fun v' hv' => ?_⟩
  have : v = v' := by simpa using hv'
  subst this
  rfl

/-- Re-parsing the pass-through output of an unparsed line yields the same
entry. -/
theorem simw_reparse_none (line : String) (hnl : '\n' ∉ line.data)
    (hn : (parse_line line).numbers = none) :
    SimW (parse_line (outStr (fill_output (parse_line line)))) (parse_line line) := by
  obtain ⟨ho, -, horig, hsan_none, hsan_some⟩ := parse_line_shape line
  have hs := hsan_none hn
  have hr : pyRstripNl line = line := by
    rw [pyRstripNl, rstripNlL, dropTrailWhile_eq_self _ _ (fun c hc => by
      simp only [beq_eq_false_iff_ne]
      exact fun hcc => hnl (hcc ▸ hc))]
  have hout : outStr (fill_output (parse_line line)) = line := by
    rw [outStr_fill _ ho, hs, horig, hr]
  rw [hout]
  exact ⟨rfl, rfl, ho, ho, fun h => ⟨hsan_none h, rfl⟩, hsan_some⟩

/-- Re-parsing the canonical output of a parsed but unlabelled line. -/
theorem simw_reparse_some (line : String)
    (v : PyFloat × PyFloat × PyFloat × PyFloat)
    (hn : (parse_line line).numbers = some v)
    (hrt : roundtrips v.1 ∧ roundtrips v.2.1 ∧ roundtrips v.2.2.1 ∧ roundtrips v.2.2.2) :
    SimW (parse_line (outStr (fill_output (parse_line line)))) (parse_line line) := by
  obtain ⟨ho, -, -, -, hsan_some⟩ := parse_line_shape line
  have hs := hsan_some v hn
  have hout : outStr (fill_output (parse_line line)) = joinFmt v := by
    rw [outStr_fill _ ho, hs]
  rw [hout]
  exact simw_reparse_fmtline line (joinFmt v) v hn hrt [] (by rw [tokensL_joinFmt])

/-- Re-parsing the labelled output of a processed pair member. -/
theorem simw_reparse_annotate (line : String)
    (v : PyFloat × PyFloat × PyFloat × PyFloat) (i : Bool)
    (hn : (parse_line line).numbers = some v)
    (hrt : roundtrips v.1 ∧ roundtrips v.2.1 ∧ roundtrips v.2.2.1 ∧ roundtrips v.2.2.2) :
    SimW (parse_line (outStr (fill_output (annotate (parse_line line) i))))
      (parse_line line) := by
  obtain ⟨ho, -, -, -, hsan_some⟩ := parse_line_shape line
  have hs := hsan_some v hn
  have hann := annotate_eq (parse_line line) v i hn hs
  have hout : outStr (fill_output (annotate (parse_line line) i)) =
      joinFmt v ++ " " ++ result_label i := by
    rw [hann]; rfl
  rw [hout]
  have hdata : (joinFmt v ++ " " ++ result_label i).data =
      (joinFmt v).data ++ ' ' :: (result_label i).data := by
    simp [String.data_append, show (" " : String).data = [' '] from rfl,
      List.append_assoc]
  refine simw_reparse_fmtline line _ v hn hrt (tokensL (result_label i).data) ?_
  rw [hdata, tokensL_joinFmt_label]

theorem outStr_fill_annotate (p : LineEntry)
    (v : PyFloat × PyFloat × PyFloat × PyFloat) (i : Bool)
    (hv : p.numbers = some v) (hs : p.sanitized_text = some (joinFmt v)) :
    outStr (fill_output (annotate p i)) = joinFmt v ++ " " ++ result_label i := by
  rw [annotate_eq p v i hv hs]
  rfl

theorem pairLoop_length : ∀ l : List LineEntry, (pairLoop l).length = l.length
  | [] => rfl
  | [a] => rfl
  | a :: b :: t => by
    cases ha : a.numbers <;> cases hb : b.numbers <;>
      simp [pairLoop, ha, hb, pairLoop_length t]

/-- Outputs of the pairing loop depend only on the `SimW`-relevant data. -/
theorem pairLoop_outputs_congr :
    ∀ (l1 l2 : List LineEntry), SimL l1 l2 →
      (pairLoop l1).map (fun e => outStr (fill_output e)) =
        (pairLoop l2).map (fun e => outStr (fill_output e))
  | [], [], _ => rfl
  | [], _ :: _, h => absurd h (by simp [SimL])
  | _ :: _, [], h => absurd h (by simp [SimL])
  | [a1], [a2], h => by
    obtain ⟨hab, -⟩ := h
    simp [pairLoop, outStr_fill_eq _ _ hab]
  | [a1], a2 :: b2 :: t2, h => absurd h.2 (by simp [SimL])
  | a1 :: b1 :: t1, [a2], h => absurd h.2 (by simp [SimL])
  | a1 :: b1 :: t1, a2 :: b2 :: t2, h => by
    obtain ⟨ha, hb, ht⟩ : SimW a1 a2 ∧ SimW b1 b2 ∧ SimL t1 t2 := ⟨h.1, h.2.1, h.2.2⟩
    have ih := pairLoop_outputs_congr t1 t2 ht
    cases hna : a1.numbers with
    | none =>
      have hna2 : a2.numbers = none := by rw [← ha.1]; exact hna
      cases hnb : b1.numbers with
      | none =>
        have hnb2 : b2.numbers = none := by rw [← hb.1]; exact hnb
        simp only [pairLoop, hna, hnb, hna2, hnb2, List.map_cons]
        rw [outStr_fill_eq _ _ ha, outStr_fill_eq _ _ hb, ih]
      | some vb =>
        have hnb2 : b2.numbers = some vb := by rw [← hb.1]; exact hnb
        simp only [pairLoop, hna, hnb, hna2, hnb2, List.map_cons]
        rw [outStr_fill_eq _ _ ha, outStr_fill_eq _ _ hb, ih]
    | some va =>
      have hna2 : a2.numbers = some va := by rw [← ha.1]; exact hna
      cases hnb : b1.numbers with
      | none =>
        have hnb2 : b2.numbers = none := by rw [← hb.1]; exact hnb
        simp only [pairLoop, hna, hnb, hna2, hnb2, List.map_cons]
        rw [outStr_fill_eq _ _ ha, outStr_fill_eq _ _ hb, ih]
      | some vb =>
        have hnb2 : b2.numbers = some vb := by rw [← hb.1]; exact hnb
        have hsa : a1.sanitized_text = some (joinFmt va) := ha.2.2.2.2.2 va hna
        have hsb : b1.sanitized_text = some (joinFmt vb) := hb.2.2.2.2.2 vb hnb
        have hsa2 : a2.sanitized_text = some (joinFmt va) := by rw [← ha.2.1]; exact hsa
        have hsb2 : b2.sanitized_text = some (joinFmt vb) := by rw [← hb.2.1]; exact hsb
        simp only [pairLoop, hna, hnb, hna2, hnb2, List.map_cons]
        rw [outStr_fill_annotate a1 va _ hna hsa, outStr_fill_annotate b1 vb _ hnb hsb,
          outStr_fill_annotate a2 va _ hna2 hsa2, outStr_fill_annotate b2 vb _ hnb2 hsb2, ih]

/-- Parsing back the outputs of run 1 produces entries `SimW`-related to the
entries of run 1. -/
theorem reparse_siml :
    ∀ (lines : List String),
      (∀ l ∈ lines, '\n' ∉ l.data) →
      (∀ l ∈ lines, ∀ v, (parse_line l).numbers = some v →
        roundtrips v.1 ∧ roundtrips v.2.1 ∧ roundtrips v.2.2.1 ∧ roundtrips v.2.2.2) →
      SimL ((pairLoop (lines.map parse_line)).map
        (fun e => parse_line (outStr (fill_output e)))) (lines.map parse_line)
  | [], _, _ => by simp [pairLoop, SimL]
  | [l], hnl, hrt => by
    refine ⟨?_, trivial⟩
    cases hn : (parse_line l).numbers with
    | none => exact simw_reparse_none l (hnl l (List.mem_cons_self l [])) hn
    | some v => exact simw_reparse_some l v hn (hrt l (List.mem_cons_self l []) v hn)
  | l1 :: l2 :: rest, hnl, hrt => by
    have ih := reparse_siml rest (fun x hx => hnl x (by simp [hx]))
      (fun x hx => hrt x (by simp [hx]))
    have hm1 : l1 ∈ l1 :: l2 :: rest := by simp
    have hm2 : l2 ∈ l1 :: l2 :: rest := by simp
    cases hn1 : (parse_line l1).numbers with
    | none =>
      cases hn2 : (parse_line l2).numbers with
      | none =>
        simp only [List.map_cons, pairLoop, hn1, hn2]
        exact ⟨simw_reparse_none l1 (hnl l1 hm1) hn1,
          simw_reparse_none l2 (hnl l2 hm2) hn2, ih⟩
      | some v2 =>
        simp only [List.map_cons, pairLoop, hn1, hn2]
        exact ⟨simw_reparse_none l1 (hnl l1 hm1) hn1,
          simw_reparse_some l2 v2 hn2 (hrt l2 hm2 v2 hn2), ih⟩
    | some v1 =>
      cases hn2 : (parse_line l2).numbers with
      | none =>
        simp only [List.map_cons, pairLoop, hn1, hn2]
        exact ⟨simw_reparse_some l1 v1 hn1 (hrt l1 hm1 v1 hn1),
          simw_reparse_none l2 (hnl l2 hm2) hn2, ih⟩
      | some v2 =>
        simp only [List.map_cons, pairLoop, hn1, hn2]
        exact ⟨simw_reparse_annotate l1 v1 _ hn1 (hrt l1 hm1 v1 hn1),
          simw_reparse_annotate l2 v2 _ hn2 (hrt l2 hm2 v2 hn2), ih⟩

theorem out_no_nl_none (l : String) (hnl : '\n' ∉ l.data)
    (hn : (parse_line l).numbers = none) :
    '\n' ∉ (outStr (fill_output (parse_line l))).data := by
  obtain ⟨ho, -, horig, hsan_none, -⟩ := parse_line_shape l
  rw [outStr_fill _ ho, hsan_none hn, horig]
  intro hmem
  exact hnl (mem_dropTrailWhile _ _ _ hmem)

theorem out_no_nl_some (l : String) (v : PyFloat × PyFloat × PyFloat × PyFloat)
    (hn : (parse_line l).numbers = some v) :
    '\n' ∉ (outStr (fill_output (parse_line l))).data := by
  obtain ⟨ho, -, -, -, hsan_some⟩ := parse_line_shape l
  rw [outStr_fill _ ho, hsan_some v hn]
  exact joinFmt_no_nl v

theorem out_no_nl_annotate (l : String)
    (v : PyFloat × PyFloat × PyFloat × PyFloat) (i : Bool)
    (hn : (parse_line l).numbers = some v) :
    '\n' ∉ (outStr (fill_output (annotate (parse_line l) i))).data := by
  obtain ⟨-, -, -, -, hsan_some⟩ := parse_line_shape l
  rw [outStr_fill_annotate _ v i hn (hsan_some v hn)]
  intro hmem
  rw [show (joinFmt v ++ " " ++ result_label i).data =
    (joinFmt v).data ++ ' ' :: (result_label i).data by
      simp [String.data_append, show (" " : String).data = [' '] from rfl,
        List.append_assoc]] at hmem
  rcases List.mem_append.1 hmem with h1 | h1
  · exact joinFmt_no_nl v h1
  rcases List.mem_cons.1 h1 with h2 | h1
  · simp at h2
  · exact result_label_no_nl i h1

/-- No output line of the analysis contains a newline. -/
theorem outputs_no_nl :
    ∀ (lines : List String), (∀ l ∈ lines, '\n' ∉ l.data) →
      ∀ s ∈ (pairLoop (lines.map parse_line)).map (fun e => outStr (fill_output e)),
        '\n' ∉ s.data
  | [], _, s, hs => by simp [pairLoop] at hs
  | [l], hnl, s, hs => by
    have hs2 : s = outStr (fill_output (parse_line l)) := by
      simpa [pairLoop] using hs
    subst hs2
    cases hn : (parse_line l).numbers with
    | none => exact out_no_nl_none l (hnl l (List.mem_cons_self l [])) hn
    | some v => exact out_no_nl_some l v hn
  | l1 :: l2 :: rest, hnl, s, hs => by
    have ih := outputs_no_nl rest (fun x hx => hnl x (by simp [hx]))
    have hm1 : l1 ∈ l1 :: l2 :: rest := by simp
    have hm2 : l2 ∈ l1 :: l2 :: rest := by simp
    cases hn1 : (parse_line l1).numbers with
    | none =>
      cases hn2 : (parse_line l2).numbers with
      | none =>
        simp only [List.map_cons, pairLoop, hn1, hn2, List.mem_cons] at hs
        rcases hs with rfl | rfl | hs
        · exact out_no_nl_none l1 (hnl l1 hm1) hn1
        · exact out_no_nl_none l2 (hnl l2 hm2) hn2
        · exact ih s hs
      | some v2 =>
        simp only [List.map_cons, pairLoop, hn1, hn2, List.mem_cons] at hs
        rcases hs with rfl | rfl | hs
        · exact out_no_nl_none l1 (hnl l1 hm1) hn1
        · exact out_no_nl_some l2 v2 hn2
        · exact ih s hs
    | some v1 =>
      cases hn2 : (parse_line l2).numbers with
      | none =>
        simp only [List.map_cons, pairLoop, hn1, hn2, List.mem_cons] at hs
        rcases hs with rfl | rfl | hs
        · exact out_no_nl_some l1 v1 hn1
        · exact out_no_nl_none l2 (hnl l2 hm2) hn2
        · exact ih s hs
      | some v2 =>
        simp only [List.map_cons, pairLoop, hn1, hn2, List.mem_cons] at hs
        rcases hs with rfl | rfl | hs
        · exact out_no_nl_annotate l1 v1 _ hn1
        · exact out_no_nl_annotate l2 v2 _ hn2
        · exact ih s hs

theorem run_content_eq (content : String) :
    run_content content =
      joinNl ((pairLoop ((pySplitlines content).map parse_line)).map
        (fun e => outStr (fill_output e))) ++ "\n" := by
  unfold run_content save_content analyze_pairs load_entries
  rw [List.map_map]
  rfl

theorem pySplitlines_joinNl (outs : List String) (h1 : outs ≠ [])
    (h2 : ∀ s ∈ outs, '\n' ∉ s.data) :
    pySplitlines (joinNl outs ++ "\n") = outs := by
  have hdata : (joinNl outs ++ "\n").data = joinNlL (outs.map String.data) ++ ['\n'] := by
    rw [String.data_append]
    rfl
  rw [pySplitlines, hdata]
  rw [splitlinesL_joinNl (outs.map String.data) (by simpa using h1)
    (by
      intro x hx
      rcases List.mem_map.1 hx with ⟨s, hs, rfl⟩
      exact h2 s hs)]
  rw [List.map_map]
  have : (String.mk ∘ String.data) = id := by
    funext s
    exact mk_data s
  rw [this, List.map_id]

theorem run_content_newline : run_content "\n" = "\n" := by
  with_unfolding_all decide

set_option maxRecDepth 100000 in
/-- C1 amended: re-running the full pipeline on its own output is
byte-identical whenever every parsed value of the input round-trips through
canonical formatting (`parse_float (format_number v) = some v`), as all
integral values do; without that condition the 6-significant-digit `%g`
rendering can change the parsed values, and the counterexample shows run 2
may differ from run 1. -/
theorem claim_C1_amended (content : String)
    (h : ∀ e ∈ load_entries content, ∀ v, e.numbers = some v →
      roundtrips v.1 ∧ roundtrips v.2.1 ∧ roundtrips v.2.2.1 ∧ roundtrips v.2.2.2) :
    run_content (run_content content) = run_content content := by
  by_cases hempty : pySplitlines content = []
  · have h1 : run_content content = "\n" := by
      unfold run_content save_content analyze_pairs load_entries
      rw [hempty]
      rfl
    rw [h1, run_content_newline]
  · have hnl : ∀ l ∈ pySplitlines content, '\n' ∉ l.data := fun l hl => by
      rcases List.mem_map.1 hl with ⟨x, hx, rfl⟩
      exact mem_splitlinesL_no_nl content.data x hx
    have hrt : ∀ l ∈ pySplitlines content, ∀ v, (parse_line l).numbers = some v →
        roundtrips v.1 ∧ roundtrips v.2.1 ∧ roundtrips v.2.2.1 ∧ roundtrips v.2.2.2 :=
      fun l hl v hv => h (parse_line l) (List.mem_map_of_mem parse_line hl) v hv
    have houts_ne : (pairLoop ((pySplitlines content).map parse_line)).map
        (fun e => outStr (fill_output e)) ≠ [] := by
      intro hx
      have hlen := congrArg List.length hx
      rw [List.length_map, pairLoop_length, List.length_map] at hlen
      exact hempty (List.length_eq_zero.1 hlen)
    have hsplit2 : pySplitlines (run_content content) =
        (pairLoop ((pySplitlines content).map parse_line)).map
          (fun e => outStr (fill_output e)) := by
      rw [run_content_eq content]
      exact pySplitlines_joinNl _ houts_ne (outputs_no_nl _ hnl)
    have hsim := reparse_siml (pySplitlines content) hnl hrt
    have hcongr := pairLoop_outputs_congr _ _ hsim
    rw [run_content_eq (run_content content), hsplit2, List.map_map]
    rw [show ((fun e => parse_line (outStr (fill_output e))) =
      (parse_line ∘ fun e => outStr (fill_output e))) from rfl] at hcongr
    rw [hcongr]
    exact (run_content_eq content).symm

/-- Witness for C1 amended on a concrete integral-valued two-line file. -/
theorem claim_C1_amended_witness :
    (∀ e ∈ load_entries "0 0 4 4 x\n0 4 4 0\n", ∀ v, e.numbers = some v →
      roundtrips v.1 ∧ roundtrips v.2.1 ∧ roundtrips v.2.2.1 ∧ roundtrips v.2.2.2) ∧
    run_content (run_content "0 0 4 4 x\n0 4 4 0\n") = run_content "0 0 4 4 x\n0 4 4 0\n" := by
  have hload : load_entries "0 0 4 4 x\n0 4 4 0\n" =
      [{ original_text := "0 0 4 4 x", numbers := some (.fin 0, .fin 0, .fin 4, .fin 4),
         sanitized_text := some "0 0 4 4" },
       { original_text := "0 4 4 0", numbers := some (.fin 0, .fin 4, .fin 4, .fin 0),
         sanitized_text := some "0 4 4 0" }] := by
    with_unfolding_all decide
  have hhyp : ∀ e ∈ load_entries "0 0 4 4 x\n0 4 4 0\n", ∀ v, e.numbers = some v →
      roundtrips v.1 ∧ roundtrips v.2.1 ∧ roundtrips v.2.2.1 ∧ roundtrips v.2.2.2 := by
    intro e he v hv
    rw [hload] at he
    rcases List.mem_cons.1 he with rfl | he2
    · have hv2 : ((.fin 0, .fin 0, .fin 4, .fin 4) :
          PyFloat × PyFloat × PyFloat × PyFloat) = v := by simpa using hv
      subst hv2
      refine ⟨?_, ?_, ?_, ?_⟩ <;> (unfold roundtrips; with_unfolding_all decide)
    rcases List.mem_cons.1 he2 with rfl | he3
    · have hv2 : ((.fin 0, .fin 4, .fin 4, .fin 0) :
          PyFloat × PyFloat × PyFloat × PyFloat) = v := by simpa using hv
      subst hv2
      refine ⟨?_, ?_, ?_, ?_⟩ <;> (unfold roundtrips; with_unfolding_all decide)
    · simp at he3
  exact ⟨hhyp, claim_C1_amended "0 0 4 4 x\n0 4 4 0\n" hhyp⟩
